import Mathlib

/- Verification development for the cf-ai-taskcoach chat worker.

   The worker under study routes chat requests, validates JSON input, parses a
   server-sent-event (SSE) token stream, accumulates the streamed tokens into a
   full assistant reply, and persists per-user conversation records in a
   key-value store.  Text is modelled as `List Char`, raw stream bytes as
   `Nat`, and the platform JSON functions (`JSON.parse`, `JSON.stringify`) are
   modelled by an executable parser and printer over a JSON value type. -/

abbrev Str := List Char

/-- JavaScript-style whitespace predicate used by `String.prototype.trim`. -/
def isJsWs (c : Char) : Bool :=
  c == ' ' || c == '\t' || c == '\n' || c == '\r' || c == Char.ofNat 11 || c == Char.ofNat 12

/-- Model of `String.prototype.trim`: strip whitespace at both ends. -/
def jsTrim (s : Str) : Str :=
  ((s.dropWhile isJsWs).reverse.dropWhile isJsWs).reverse

/-- JSON whitespace (RFC 8259 insignificant whitespace). -/
def isJsonWs (c : Char) : Bool :=
  c == ' ' || c == '\t' || c == '\n' || c == '\r'

/-- Drop leading JSON whitespace. -/
def skipWs (s : Str) : Str := s.dropWhile isJsonWs

/-- Lower-case hexadecimal digit for a value below 16. -/
def hexDigitChar (n : Nat) : Char :=
  if n < 10 then Char.ofNat (48 + n) else Char.ofNat (87 + n)

/-- Value of one hexadecimal digit character. -/
def hexVal (c : Char) : Option Nat :=
  if '0' ≤ c ∧ c ≤ '9' then some (c.toNat - 48)
  else if 'a' ≤ c ∧ c ≤ 'f' then some (c.toNat - 87)
  else if 'A' ≤ c ∧ c ≤ 'F' then some (c.toNat - 55)
  else none

/-- JSON values as produced by `JSON.parse`.  Numbers keep their raw source
    token, which is all the worker ever needs of them. -/
inductive JsonValue where
  | null
  | bool (b : Bool)
  | num (raw : Str)
  | str (s : Str)
  | arr (elems : List JsonValue)
  | obj (fields : List (Str × JsonValue))
deriving Repr

/-- Escape one character the way `JSON.stringify` does inside string literals. -/
def encChar (c : Char) : Str :=
  if c = '"' then ['\\', '"']
  else if c = '\\' then ['\\', '\\']
  else if c = Char.ofNat 8 then ['\\', 'b']
  else if c = '\t' then ['\\', 't']
  else if c = '\n' then ['\\', 'n']
  else if c = Char.ofNat 12 then ['\\', 'f']
  else if c = '\r' then ['\\', 'r']
  else if c.toNat < 32 then
    ['\\', 'u', '0', '0', hexDigitChar (c.toNat / 16), hexDigitChar (c.toNat % 16)]
  else [c]

/-- Body of a JSON string literal (content between the quotes). -/
def encodeStringBody (s : Str) : Str := (s.map encChar).flatten

/-- A full JSON string literal, quotes included. -/
def encodeString (s : Str) : Str := '"' :: encodeStringBody s ++ ['"']

mutual

/-- Model of `JSON.stringify` (compact form, no added whitespace). -/
def stringify : JsonValue → Str
  | .null => ("null".data)
  | .bool true => ("true".data)
  | .bool false => ("false".data)
  | .num raw => raw
  | .str s => encodeString s
  | .arr es => '[' :: stringifyItems es ++ [']']
  | .obj fs => '{' :: stringifyFields fs ++ ['}']

/-- Printer for the comma-separated items of an array. -/
def stringifyItems : List JsonValue → Str
  | [] => []
  | [v] => stringify v
  | v :: vs => stringify v ++ ',' :: stringifyItems vs

/-- Printer for the comma-separated members of an object. -/
def stringifyFields : List (Str × JsonValue) → Str
  | [] => []
  | [(k, v)] => encodeString k ++ ':' :: stringify v
  | (k, v) :: fs => encodeString k ++ ':' :: stringify v ++ ',' :: stringifyFields fs

end

/-- The decoded character of a single-character JSON escape. -/
def escCharOf (e : Char) : Option Char :=
  if e = '"' then some '"'
  else if e = '\\' then some '\\'
  else if e = '/' then some '/'
  else if e = 'b' then some (Char.ofNat 8)
  else if e = 'f' then some (Char.ofNat 12)
  else if e = 'n' then some '\n'
  else if e = 'r' then some '\r'
  else if e = 't' then some '\t'
  else none

/-- Decode the four hex digits of a `u` escape; returns the character and the
    remainder. -/
def hexVal4 : Str → Option (Char × Str)
  | a :: b :: c :: d :: r2 =>
    match hexVal a, hexVal b, hexVal c, hexVal d with
    | some x1, some x2, some x3, some x4 =>
      some (Char.ofNat (((x1 * 16 + x2) * 16 + x3) * 16 + x4), r2)
    | _, _, _, _ => none
  | _ => none

/-- Parse the body of a JSON string literal, starting after the opening quote;
    returns the decoded content and the remainder after the closing quote.
    The fuel only needs to exceed the number of decoded characters. -/
def parseStringBody : Nat → Str → Option (Str × Str)
  | 0, _ => none
  | _ + 1, [] => none
  | fuel + 1, c :: rest =>
    if c = '"' then some ([], rest)
    else if c = '\\' then
      match rest with
      | [] => none
      | e :: r =>
        if e = 'u' then
          match hexVal4 r with
          | some p4 => (parseStringBody fuel p4.2).map (fun p => (p4.1 :: p.1, p.2))
          | none => none
        else
          match escCharOf e with
          | some ec => (parseStringBody fuel r).map (fun p => (ec :: p.1, p.2))
          | none => none
    else (parseStringBody fuel rest).map (fun p => (c :: p.1, p.2))

/-- Expect a literal suffix of a keyword; return the remainder on success. -/
def expectLit (lit : Str) (cs : Str) : Option Str :=
  if lit.isPrefixOf cs then some (cs.drop lit.length) else none

/-- Parse a JSON number token (kept raw). -/
def parseNumber (cs : Str) : Option (JsonValue × Str) :=
  let p1 := if cs.head? = some '-' then ((['-'] : Str), cs.drop 1) else (([] : Str), cs)
  let sgn := p1.1
  let cs1 := p1.2
  let ds := cs1.takeWhile Char.isDigit
  if ds.isEmpty then none
  else
    let cs2 := cs1.drop ds.length
    let p2 :=
      if cs2.head? = some '.' ∧ ¬((cs2.drop 1).takeWhile Char.isDigit).isEmpty then
        let fds := (cs2.drop 1).takeWhile Char.isDigit
        ('.' :: fds, cs2.drop (1 + fds.length))
      else (([] : Str), cs2)
    let frac := p2.1
    let cs3 := p2.2
    let p3 :=
      match cs3.head? with
      | some e =>
        if e = 'e' ∨ e = 'E' then
          let p4 :=
            match (cs3.drop 1).head? with
            | some s2 => if s2 = '+' ∨ s2 = '-' then ([e, s2], cs3.drop 2) else ([e], cs3.drop 1)
            | none => ([e], cs3.drop 1)
          let eds := p4.2.takeWhile Char.isDigit
          if eds.isEmpty then (([] : Str), cs3) else (p4.1 ++ eds, p4.2.drop eds.length)
        else (([] : Str), cs3)
      | none => (([] : Str), cs3)
    some (.num (sgn ++ ds ++ frac ++ p3.1), p3.2)

mutual

/-- Fueled model of `JSON.parse` on one value; consumes leading whitespace,
    returns the value and the unconsumed remainder. -/
def parseValue : Nat → Str → Option (JsonValue × Str)
  | 0, _ => none
  | fuel + 1, cs0 =>
    match skipWs cs0 with
    | [] => none
    | c :: rest =>
      if c = '"' then
        (parseStringBody (rest.length + 1) rest).map (fun p => (JsonValue.str p.1, p.2))
      else if c = '{' then
        let cs2 := skipWs rest
        if cs2.head? = some '}' then some (.obj [], cs2.drop 1)
        else (parseObjItems fuel cs2).map (fun p => (JsonValue.obj p.1, p.2))
      else if c = '[' then
        let cs2 := skipWs rest
        if cs2.head? = some ']' then some (.arr [], cs2.drop 1)
        else (parseArrItems fuel cs2).map (fun p => (JsonValue.arr p.1, p.2))
      else if c = 'n' then (expectLit ("ull".data) rest).map (fun r => (JsonValue.null, r))
      else if c = 't' then (expectLit ("rue".data) rest).map (fun r => (JsonValue.bool true, r))
      else if c = 'f' then (expectLit ("alse".data) rest).map (fun r => (JsonValue.bool false, r))
      else if c = '-' ∨ c.isDigit then parseNumber (c :: rest)
      else none

/-- Items of a non-empty JSON array (after the opening bracket). -/
def parseArrItems : Nat → Str → Option (List JsonValue × Str)
  | 0, _ => none
  | fuel + 1, cs =>
    match parseValue fuel cs with
    | none => none
    | some (v, r1) =>
      let r2 := skipWs r1
      if r2.head? = some ',' then
        match parseArrItems fuel (r2.drop 1) with
        | none => none
        | some (vs, r3) => some (v :: vs, r3)
      else if r2.head? = some ']' then some ([v], r2.drop 1)
      else none

/-- Members of a non-empty JSON object (after the opening brace, whitespace
    already skipped). -/
def parseObjItems : Nat → Str → Option (List (Str × JsonValue) × Str)
  | 0, _ => none
  | fuel + 1, cs =>
    match cs with
    | [] => none
    | c :: rest =>
      if c = '"' then
        match parseStringBody (rest.length + 1) rest with
        | none => none
        | some (k, r1) =>
          let r2 := skipWs r1
          if r2.head? = some ':' then
            match parseValue fuel (r2.drop 1) with
            | none => none
            | some (v, r3) =>
              let r4 := skipWs r3
              if r4.head? = some ',' then
                match parseObjItems fuel (skipWs (r4.drop 1)) with
                | none => none
                | some (fs, r5) => some ((k, v) :: fs, r5)
              else if r4.head? = some '}' then some ([(k, v)], r4.drop 1)
              else none
          else none
      else none

end

/-- Model of `JSON.parse`: parse one value, require only whitespace to remain.
    The fuel is generous enough for any input (proved sufficient below for
    printed values). -/
def jsonParse (cs : Str) : Option JsonValue :=
  match parseValue (2 * cs.length + 4) cs with
  | some (v, rest) => if (skipWs rest).isEmpty then some v else none
  | none => none

/-- Does a raw JSON number token denote zero (the only falsy number)? -/
def numIsZero (raw : Str) : Bool :=
  ((raw.takeWhile (fun c => !(c == 'e') && !(c == 'E'))).filter Char.isDigit).all (fun c => c == '0')

/-- JavaScript truthiness of a JSON value. -/
def jsTruthy : JsonValue → Bool
  | .null => false
  | .bool b => b
  | .num raw => !(numIsZero raw)
  | .str s => !s.isEmpty
  | .arr _ => true
  | .obj _ => true

/-- Is the value null (helper for array-to-string coercion)? -/
def jsIsNull : JsonValue → Bool
  | .null => true
  | _ => false

mutual

/-- JavaScript `String(x)` coercion for JSON values.  Arrays coerce to the
    comma join of their coerced elements (null elements joining as empty),
    objects coerce to the fixed object tag. -/
def jsToString : JsonValue → Str
  | .null => ("null".data)
  | .bool true => ("true".data)
  | .bool false => ("false".data)
  | .num raw => raw
  | .str s => s
  | .arr es => jsToStringElems es
  | .obj _ => ("[object Object]".data)

/-- `Array.prototype.join(",")` over coerced elements. -/
def jsToStringElems : List JsonValue → Str
  | [] => []
  | [v] => if jsIsNull v then [] else jsToString v
  | v :: vs => (if jsIsNull v then ([] : Str) else jsToString v) ++ ',' :: jsToStringElems vs

end

/-- JavaScript string-keyed property read on a parsed JSON value: objects give
    the (last) field of that key, everything else gives undefined (`none`). -/
def jsGetField (v : JsonValue) (k : Str) : Option JsonValue :=
  match v with
  | .obj fields => (fields.reverse.find? (fun p => p.1 == k)).map (fun p => p.2)
  | _ => none

/-- JavaScript property assignment `v[k] = x` on a parsed JSON value.  On a
    non-object it is the identity: in the worker every such assignment either
    throws a TypeError that the surrounding `try` swallows, or assigns an
    expando that `JSON.stringify` would drop. -/
def jsSetField (v : JsonValue) (k : Str) (x : JsonValue) : JsonValue :=
  match v with
  | .obj fields =>
      if fields.any (fun p => p.1 == k) then
        .obj (fields.map (fun p => if p.1 == k then (k, x) else p))
      else .obj (fields ++ [(k, x)])
  | _ => v

/-- JavaScript `delete v[k]` on a parsed JSON value. -/
def jsDeleteField (v : JsonValue) (k : Str) : JsonValue :=
  match v with
  | .obj fields => .obj (fields.filter (fun p => !(p.1 == k)))
  | _ => v

/-- `Object.keys(v).length` for a parsed JSON value. -/
def objKeysLength : JsonValue → Nat
  | .obj fields => fields.length
  | .arr es => es.length
  | _ => 0

/-- `Object.entries(v)` for a parsed JSON value. -/
def entriesOf : JsonValue → List (Str × JsonValue)
  | .obj fields => fields
  | .arr es => es.enum.map (fun p => ((Nat.repr p.1).data, p.2))
  | _ => []

/-- The Unicode replacement character U+FFFD. -/
def replacementChar : Char := Char.ofNat 0xFFFD

/-- State of the WHATWG streaming UTF-8 decoder backing `TextDecoder`. -/
structure Utf8State where
  codePoint : Nat
  bytesNeeded : Nat
  bytesSeen : Nat
  lowerBoundary : Nat
  upperBoundary : Nat
deriving Repr

/-- Fresh decoder state. -/
def utf8Init : Utf8State := ⟨0, 0, 0, 0x80, 0xBF⟩

/-- Process one byte in the lead position (no continuation pending). -/
def utf8Lead (b : Nat) : Str × Utf8State :=
  if b ≤ 0x7F then ([Char.ofNat b], utf8Init)
  else if 0xC2 ≤ b ∧ b ≤ 0xDF then (([] : Str), ⟨b % 32, 1, 0, 0x80, 0xBF⟩)
  else if 0xE0 ≤ b ∧ b ≤ 0xEF then
    (([] : Str), ⟨b % 16, 2, 0, (if b = 0xE0 then 0xA0 else 0x80), (if b = 0xED then 0x9F else 0xBF)⟩)
  else if 0xF0 ≤ b ∧ b ≤ 0xF4 then
    (([] : Str), ⟨b % 8, 3, 0, (if b = 0xF0 then 0x90 else 0x80), (if b = 0xF4 then 0x8F else 0xBF)⟩)
  else ([replacementChar], utf8Init)

/-- One step of the WHATWG UTF-8 decoder: emitted characters and next state. -/
def utf8Step (st : Utf8State) (b : Nat) : Str × Utf8State :=
  if st.bytesNeeded = 0 then utf8Lead b
  else if st.lowerBoundary ≤ b ∧ b ≤ st.upperBoundary then
    let cp := st.codePoint * 64 + (b % 64)
    if st.bytesSeen + 1 = st.bytesNeeded then ([Char.ofNat cp], utf8Init)
    else (([] : Str), ⟨cp, st.bytesNeeded, st.bytesSeen + 1, 0x80, 0xBF⟩)
  else
    let p := utf8Lead b
    (replacementChar :: p.1, p.2)

/-- Decode one chunk with a given starting state (`decode(chunk, {stream: true})`):
    emitted text plus the pending state carried to the next chunk. -/
def utf8DecodeChunk (st : Utf8State) (bytes : List Nat) : Str × Utf8State :=
  bytes.foldl (fun acc b => let p := utf8Step acc.2 b; (acc.1 ++ p.1, p.2)) (([] : Str), st)

/-- Decoding as done in part_001 `transform`: a freshly constructed
    `TextDecoder` is used for each chunk, so pending bytes of a multi-byte
    character at a chunk boundary are silently discarded. -/
def textDecodeFresh (bytes : List Nat) : Str :=
  (utf8DecodeChunk utf8Init bytes).1

/-- The payload of a candidate SSE line: strip the `data: ` marker when
    present, then trim. -/
def payloadOf (line : Str) : Str :=
  if ("data: ".data).isPrefixOf line then jsTrim (line.drop 6) else jsTrim line

/-- The per-line token accumulation step shared by the worker loops: skip
    blank lines and the `[DONE]` sentinel, strip the SSE data marker, parse as
    JSON, and append a truthy `response` field to the accumulated text. -/
def processLine (responseText : Str) (line : Str) : Str :=
  if (jsTrim line).isEmpty || line == ("data: [DONE]".data) then responseText
  else
    let jsonStr := payloadOf line
    if jsonStr.isEmpty then responseText
    else
      match jsonParse jsonStr with
      | none => responseText
      | some jsonData =>
        match jsGetField jsonData ("response".data) with
        | none => responseText
        | some v => if jsTruthy v then responseText ++ jsToString v else responseText

/-- Mutable state of the part_001 TransformStream closure. -/
structure TState where
  responseText : Str
  buffer : Str
deriving Repr

/-- One call of the part_001 `transform(chunk, controller)`: enqueue the chunk
    unchanged for the client, then decode it with a fresh TextDecoder, split
    the running buffer on newlines, keep the final fragment, and feed each
    complete line to the accumulator. -/
def transform001 (st : TState) (chunk : List Nat) : List (List Nat) × TState :=
  let text := textDecodeFresh chunk
  let buf := st.buffer ++ text
  let parts := buf.splitOn '\n'
  let newBuffer := parts.getLast?.getD ([] : Str)
  let lines := parts.dropLast
  ([chunk], ⟨lines.foldl processLine st.responseText, newBuffer⟩)

/-- Run the transform over a whole sequence of upstream chunks, collecting the
    chunks enqueued to the client and the final closure state. -/
def runTransform (st : TState) : List (List Nat) → List (List Nat) × TState
  | [] => ([], st)
  | c :: cs =>
    let p := transform001 st c
    let q := runTransform p.2 cs
    (p.1 ++ q.1, q.2)

/-- The buffer-draining part of part_001 `flush()`: process the remaining
    buffer as one final candidate line and return the final accumulated text. -/
def flushText (st : TState) : Str :=
  let buffer := st.buffer
  if !(jsTrim buffer).isEmpty && !(buffer == ("data: [DONE]".data)) then
    let jsonStr := payloadOf buffer
    match jsonParse jsonStr with
    | none => st.responseText
    | some jsonData =>
      match jsGetField jsonData ("response".data) with
      | none => st.responseText
      | some v => if jsTruthy v then st.responseText ++ jsToString v else st.responseText
  else st.responseText

/-- Side effects the worker can perform against its collaborators. -/
inductive Effect where
  | kvGet (key : Str)
  | aiRun
  | kvPut (key : Str) (value : Str) (expirationTtl : Nat)
deriving Repr

/-- The storage key for a user record. -/
def historyKey (userId : Str) : Str := ("history:".data) ++ userId

/-- The fixed default system prompt. -/
def SYSTEM_PROMPT : Str :=
  ("You are a helpful, friendly assistant. Provide concise and accurate responses.".data)

/-- The default system message the orchestrator prepends. -/
def defaultSystemMessage : JsonValue :=
  .obj [(("role".data), .str ("system".data)), (("content".data), .str SYSTEM_PROMPT)]

/-- `msg.role === "system"`. -/
def isSystemMessage (m : JsonValue) : Bool :=
  match jsGetField m ("role".data) with
  | some (.str s) => s == ("system".data)
  | _ => false

/-- Lines 263 to 265 of part_001: prepend the default system message unless
    some message already has the system role. -/
def ensureSystemPrompt (messages : List JsonValue) : List JsonValue :=
  if messages.any isSystemMessage then messages else defaultSystemMessage :: messages

/-- Can a property assignment on this value succeed (objects and arrays)?
    Assigning on null, undefined or a primitive throws a TypeError. -/
def canSetProp : JsonValue → Bool
  | .obj _ => true
  | .arr _ => true
  | _ => false

/-- Result of the part_001 `flush()` persistence step. -/
structure FlushResult where
  messages : List JsonValue
  userChats : JsonValue
  put : Option Effect

/-- Lines 311 to 340 of part_001 `flush()`: drain the buffer, then if any text
    was accumulated, append the assistant turn, store it into the user record
    and schedule the KV write; the TypeError when `userChats[chatId]` is not
    an object aborts the write. -/
def flushStore001 (userId chatId : Str) (messages : List JsonValue) (userChats : JsonValue)
    (st : TState) : FlushResult :=
  let responseText := flushText st
  if !responseText.isEmpty then
    let messages2 := messages ++
      [JsonValue.obj [(("role".data), .str ("assistant".data)), (("content".data), .str responseText)]]
    match jsGetField userChats chatId with
    | some cv =>
      if canSetProp cv then
        let uc2 := jsSetField userChats chatId (jsSetField cv ("messages".data) (.arr messages2))
        ⟨messages2, uc2, some (.kvPut (historyKey userId) (stringify uc2) (60 * 60 * 24 * 7))⟩
      else ⟨messages2, userChats, none⟩
    | none => ⟨messages2, userChats, none⟩
  else ⟨messages, userChats, none⟩

/-- `typeof v === "object"` for a parsed JSON value. -/
def jsIsObjectType : JsonValue → Bool
  | .obj _ => true
  | .arr _ => true
  | .null => true
  | _ => false

/-- Lines 236 to 244 of part_001: normalize one incoming message.  Strings
    become user messages; objects keep their role (defaulting to user when
    absent or null) and have their content coerced to a string, falling back
    to the string coercion of the whole value; anything else is coerced. -/
def normalizeMessage (m : JsonValue) : JsonValue :=
  match m with
  | .str s => .obj [(("role".data), .str ("user".data)), (("content".data), .str s)]
  | _ =>
    if jsTruthy m && jsIsObjectType m then
      let role :=
        match jsGetField m ("role".data) with
        | none => JsonValue.str ("user".data)
        | some .null => JsonValue.str ("user".data)
        | some v => v
      let content :=
        match jsGetField m ("content".data) with
        | none => jsToString m
        | some .null => jsToString m
        | some v => jsToString v
      .obj [(("role".data), role), (("content".data), .str content)]
    else .obj [(("role".data), .str ("user".data)), (("content".data), .str (jsToString m))]

/-- Lines 234 to 245 of part_001: a `messages` payload that is not an array is
    treated as the empty list, an array is normalized elementwise. -/
def normalizeIncoming (incoming : Option JsonValue) : List JsonValue :=
  match incoming with
  | some (.arr ms) => ms.map normalizeMessage
  | _ => []

/-- Outcome of one `env.CHAT_HISTORY.get` call: a stored value, absence, or a
    thrown storage error. -/
inductive KvRead where
  | ok (stored : Option Str)
  | err
deriving Repr

/-- Line 256 of part_001: the record for a freshly created conversation, named
    after the current conversation count plus one. -/
def newChatValue (userChats : JsonValue) : JsonValue :=
  .obj [(("name".data), .str (("Chat ".data) ++ (Nat.repr (objKeysLength userChats + 1)).data)),
        (("messages".data), .arr ([] : List JsonValue))]

/-- Lines 247 to 260 of part_001: load and parse the user record, then either
    read the existing conversation or create a new one.  Returns the resulting
    `userChats` value and what the `history` variable holds afterwards:
    `none` means it kept its initial empty-array value, `some h` means it was
    assigned `userChats[chatId].messages` (itself `none` when that property is
    undefined).  Storage or parse errors are caught and leave the defaults. -/
def loadUserChats (chatId : Str) (kv : KvRead) : JsonValue × Option (Option JsonValue) :=
  match kv with
  | .err => (.obj [], none)
  | .ok stored =>
    let parsed? : Option JsonValue :=
      match stored with
      | some s => if !s.isEmpty then jsonParse s else some (.obj [])
      | none => some (.obj [])
    match parsed? with
    | none => (.obj [], none)
    | some uc =>
      match jsGetField uc chatId with
      | some cv =>
        if jsTruthy cv then (uc, some (jsGetField cv ("messages".data)))
        else (jsSetField uc chatId (newChatValue uc), none)
      | none => (jsSetField uc chatId (newChatValue uc), none)

/-- The spread `[...history, ...incomingMessages]`: arrays spread to their
    elements, strings to their characters; spreading undefined, null or any
    other non-iterable throws (modelled as `none`, caught by the outer
    handler as a 500). -/
def spreadHistory (h : Option (Option JsonValue)) (incomingMessages : List JsonValue) :
    Option (List JsonValue) :=
  match h with
  | none => some incomingMessages
  | some hv =>
    match hv with
    | some (.arr xs) => some (xs ++ incomingMessages)
    | some (.str s) => some (s.map (fun ch => JsonValue.str [ch]) ++ incomingMessages)
    | _ => none

/-- A simple HTTP response model: status code plus the JSON value passed to
    `JSON.stringify` for the body (`none` for the streamed body). -/
structure HandlerResult where
  status : Nat
  body : Option JsonValue
  clientChunks : List (List Nat)
  effects : List Effect

/-- An error response body `{error: msg}`. -/
def errObj (msg : Str) : JsonValue := .obj [(("error".data), .str msg)]

/-- Validation used for `userId` and `chatId`: passes `!x || typeof x !== "string"`
    exactly when the field is a non-empty string. -/
def validStringField (v : Option JsonValue) : Option Str :=
  match v with
  | some (.str s) => if s.isEmpty then none else some s
  | _ => none

/-- Lines 200 to 355 of part_001 `handleChatRequest`: validate the body and the
    `userId` and `chatId` fields, normalize the incoming messages, load or
    create the conversation, merge history with the new messages, ensure the
    system prompt, stream the model output through the transform and run the
    flush.  The effect trace records every collaborator interaction in order. -/
def handleChatRequest (body? : Option JsonValue) (kv : KvRead) (aiChunks : List (List Nat)) :
    HandlerResult :=
  match body? with
  | none => ⟨400, some (errObj ("Invalid JSON body".data)), [], []⟩
  | some body =>
    if !(jsTruthy body && jsIsObjectType body) then
      ⟨400, some (errObj ("Invalid JSON body".data)), [], []⟩
    else
      match validStringField (jsGetField body ("userId".data)) with
      | none => ⟨400, some (errObj ("Missing or invalid userId".data)), [], []⟩
      | some userId =>
        match validStringField (jsGetField body ("chatId".data)) with
        | none => ⟨400, some (errObj ("Missing or invalid chatId".data)), [], []⟩
        | some chatId =>
          let incomingMessages := normalizeIncoming (jsGetField body ("messages".data))
          let load := loadUserChats chatId kv
          match spreadHistory load.2 incomingMessages with
          | none =>
            ⟨500, some (errObj ("Failed to process request".data)), [], [.kvGet (historyKey userId)]⟩
          | some merged =>
            let messages := ensureSystemPrompt merged
            let run := runTransform ⟨[], []⟩ aiChunks
            let flushed := flushStore001 userId chatId messages load.1 run.2
            ⟨200, none, run.1,
              [.kvGet (historyKey userId), .aiRun] ++
                (match flushed.put with | some e => [e] | none => [])⟩

/-- A query parameter after the `!param` check: present and non-empty. -/
def paramOk : Option Str → Option Str
  | some s => if s.isEmpty then none else some s
  | none => none

/-- Response model for the three JSON endpoints. -/
structure EndpointResult where
  status : Nat
  body : JsonValue
deriving Repr

/-- Lines 77 to 114 of part_001 `getChatHistory`: missing params give 400, a
    storage read or parse failure gives 500, otherwise the conversation
    messages (or an empty array) are returned with 200. -/
def getChatHistory (userIdP chatIdP : Option Str) (kv : KvRead) : EndpointResult :=
  match paramOk userIdP with
  | none => ⟨400, errObj ("Missing userId parameter".data)⟩
  | some _ =>
    match paramOk chatIdP with
    | none => ⟨400, errObj ("Missing chatId parameter".data)⟩
    | some chatId =>
      match kv with
      | .err => ⟨500, errObj ("Failed to load chat history".data)⟩
      | .ok stored =>
        match stored with
        | some s =>
          if !s.isEmpty then
            match jsonParse s with
            | none => ⟨500, errObj ("Failed to load chat history".data)⟩
            | some uc =>
              let history :=
                match jsGetField uc chatId with
                | none => JsonValue.arr []
                | some .null => JsonValue.arr []
                | some cv =>
                  match jsGetField cv ("messages".data) with
                  | some mv => if jsTruthy mv then mv else JsonValue.arr []
                  | none => JsonValue.arr []
              ⟨200, .obj [(("history".data), history)]⟩
          else ⟨200, .obj [(("history".data), .arr [])]⟩
        | none => ⟨200, .obj [(("history".data), .arr [])]⟩

/-- Lines 163 to 195 of part_001 `getConversations`: list chat ids and names;
    a storage read or parse failure gives 500. -/
def getConversations (userIdP : Option Str) (kv : KvRead) : EndpointResult :=
  match paramOk userIdP with
  | none => ⟨400, errObj ("Missing userId parameter".data)⟩
  | some _ =>
    match kv with
    | .err => ⟨500, errObj ("Failed to load conversations".data)⟩
    | .ok stored =>
      let parsed? : Option JsonValue :=
        match stored with
        | some s => if !s.isEmpty then jsonParse s else some (.obj [])
        | none => some (.obj [])
      match parsed? with
      | none => ⟨500, errObj ("Failed to load conversations".data)⟩
      | some uc =>
        let chatNames := (entriesOf uc).map (fun p =>
          JsonValue.obj ([(("chatId".data), JsonValue.str p.1)] ++
            (match jsGetField p.2 ("name".data) with
             | some v => [(("name".data), v)]
             | none => [])))
        ⟨200, .obj [(("chats".data), .arr chatNames)]⟩

/-- Response of the delete endpoint, with the scheduled KV rewrite. -/
structure DeleteResult where
  status : Nat
  body : JsonValue
  put : Option Effect

/-- Lines 117 to 160 of part_001 `deleteChatHistory`: remove the conversation
    from the user record (a no-op when absent) and rewrite the whole record;
    always answers `{message: "Chat deleted"}` on success. -/
def deleteChatHistory (userIdP chatIdP : Option Str) (kv : KvRead) : DeleteResult :=
  match paramOk userIdP with
  | none => ⟨400, errObj ("Missing userId parameter".data), none⟩
  | some userId =>
    match paramOk chatIdP with
    | none => ⟨400, errObj ("Missing chatId parameter".data), none⟩
    | some chatId =>
      match kv with
      | .err => ⟨500, errObj ("Failed to delete chat".data), none⟩
      | .ok stored =>
        let parsed? : Option JsonValue :=
          match stored with
          | some s => if !s.isEmpty then jsonParse s else some (.obj [])
          | none => some (.obj [])
        match parsed? with
        | none => ⟨500, errObj ("Failed to delete chat".data), none⟩
        | some uc0 =>
          let uc :=
            match jsGetField uc0 chatId with
            | some cv => if jsTruthy cv then jsDeleteField uc0 chatId else uc0
            | none => uc0
          ⟨200, .obj [(("message".data), .str ("Chat deleted".data))],
            some (.kvPut (historyKey userId) (stringify uc) (60 * 60 * 24 * 7))⟩

/-- A well-formed stored chat message. -/
structure ChatMessage where
  role : Str
  content : Str

/-- A well-formed stored conversation: display name and ordered messages. -/
structure Chat where
  name : Str
  messages : List ChatMessage

/-- A user conversation set: the per-user mapping of conversation id to
    conversation, the unit of persistence. -/
abbrev UserChats := List (Str × Chat)

/-- JSON encoding of a stored message. -/
def chatMessageToJson (m : ChatMessage) : JsonValue :=
  .obj [(("role".data), .str m.role), (("content".data), .str m.content)]

/-- JSON encoding of a stored conversation. -/
def chatToJson (c : Chat) : JsonValue :=
  .obj [(("name".data), .str c.name), (("messages".data), .arr (c.messages.map chatMessageToJson))]

/-- JSON encoding of a whole user conversation set. -/
def userChatsToJson (u : UserChats) : JsonValue :=
  .obj (u.map (fun p => (p.1, chatToJson p.2)))

mutual

/-- Values free of number tokens; everything the worker ever stores. -/
def noNum : JsonValue → Bool
  | .null => true
  | .bool _ => true
  | .num _ => false
  | .str _ => true
  | .arr es => noNumItems es
  | .obj fs => noNumFields fs

/-- `noNum` over array items. -/
def noNumItems : List JsonValue → Bool
  | [] => true
  | v :: vs => noNum v && noNumItems vs

/-- `noNum` over object members. -/
def noNumFields : List (Str × JsonValue) → Bool
  | [] => true
  | (_, v) :: fs => noNum v && noNumFields fs

end

mutual

/-- Fuel sufficient for `parseValue` to reparse a printed value. -/
def parseFuelNeeded : JsonValue → Nat
  | .arr es => 1 + itemsFuel es
  | .obj fs => 1 + fieldsFuel fs
  | _ => 1

/-- Fuel sufficient for `parseArrItems` on printed items. -/
def itemsFuel : List JsonValue → Nat
  | [] => 1
  | v :: vs => 1 + parseFuelNeeded v + itemsFuel vs

/-- Fuel sufficient for `parseObjItems` on printed members. -/
def fieldsFuel : List (Str × JsonValue) → Nat
  | [] => 1
  | (_, v) :: fs => 1 + parseFuelNeeded v + fieldsFuel fs

end

/-- A well-formed SSE data line carrying the token `s`. -/
def sseDataLine (s : Str) : Str :=
  ("data: ".data) ++ stringify (.obj [(("response".data), .str s)])


/-- An accumulator input: either a well-formed data line with its payload
    string, or a raw line whose payload does not parse. -/
def lineOfEntry : Str ⊕ Str → Str
  | .inl s => sseDataLine s
  | .inr l => l

/-- The payload strings of the well-formed entries. -/
def goodPayloads (entries : List (Str ⊕ Str)) : List Str :=
  entries.filterMap (fun e => match e with | .inl s => some s | .inr _ => none)


/-- Reparsing property of a printed value, for every sufficient fuel. -/
def RTP (v : JsonValue) : Prop :=
  ∀ fuel, parseFuelNeeded v ≤ fuel → ∀ rest,
    parseValue fuel (stringify v ++ rest) = some (v, rest)


/-- Byte encoding of pure-ASCII text. -/
def asciiBytes (s : Str) : List Nat := s.map Char.toNat

/-- First chunk of the C1 failing input: an SSE data line carrying the euro
    sign, cut after the first two bytes of its three-byte UTF-8 encoding. -/
def euroChunk1 : List Nat := asciiBytes ("data: \x7b\"response\": \"".data) ++ [0xE2, 0x82]

/-- Second chunk of the C1 failing input: the final euro byte and the rest of
    the line. -/
def euroChunk2 : List Nat := [0xAC] ++ asciiBytes ("\"\x7d\n".data)

/-- The accumulated response text produced by the part_001 transform and flush
    for a given upstream chunk sequence. -/
def accumulatedText (chunks : List (List Nat)) : Str :=
  flushText (runTransform ⟨[], []⟩ chunks).2

/-- Modelled from the claim wording, for comparison with the code: the number
    carried by a display name of the exact form `Chat N`. -/
def chatNumOfName (nm : Str) : Option Nat :=
  if ("Chat ".data).isPrefixOf nm then
    let ds := nm.drop 5
    if !ds.isEmpty && ds.all Char.isDigit then
      some (ds.foldl (fun a c => a * 10 + (c.toNat - 48)) 0)
    else none
  else none

/-- Smallest candidate at least `k` missing from `used`, with enough fuel. -/
def leastUnusedFrom : Nat → Nat → List Nat → Nat
  | 0, k, _ => k
  | f + 1, k, used => if k ∈ used then leastUnusedFrom f (k + 1) used else k

/-- Modelled from the claim wording, for comparison with the code: `Chat N`
    where N is the smallest positive integer not already used among the
    existing conversation names. -/
def specSmallestUnusedChatName (names : List Str) : Str :=
  let used := names.filterMap chatNumOfName
  ("Chat ".data) ++ (Nat.repr (leastUnusedFrom (used.length + 1) 1 used)).data

/-- Concrete conversation set with names `Chat 1` and `Chat 3`. -/
def twoChatsExample : UserChats :=
  [(("a".data), ⟨("Chat 1".data), []⟩), (("b".data), ⟨("Chat 3".data), []⟩)]

/-- Concrete one-conversation set. -/
def oneChatExample : UserChats := [(("a".data), ⟨("Chat 1".data), []⟩)]

/-- Concrete accumulator input: two good lines around a malformed one. -/
def c4Entries : List (Str ⊕ Str) :=
  [Sum.inl ("He".data), Sum.inr ("data: \x7bgarbage".data), Sum.inl ("llo".data)]


theorem mem_dropWhile_of_not {α : Type} (p : α → Bool) (c : α) :
    ∀ s : List α, c ∈ s → p c = false → c ∈ s.dropWhile p := by
  intro s
  induction s with
  | nil => intro h; simp at h
  | cons a t ih =>
    intro hc hp
    rw [List.dropWhile_cons]
    by_cases ha : p a = true
    · rw [if_pos ha]
      rcases List.mem_cons.mp hc with rfl | hmem
      · rw [ha] at hp; simp at hp
      · exact ih hmem hp
    · rw [if_neg ha]
      exact hc

theorem jsTrim_ne_nil (s : Str) (c : Char) (hc : c ∈ s) (h1 : isJsWs c = false) :
    jsTrim s ≠ [] := by
  have m1 : c ∈ s.dropWhile isJsWs := mem_dropWhile_of_not _ _ _ hc h1
  have m2 : c ∈ (s.dropWhile isJsWs).reverse := List.mem_reverse.mpr m1
  have m3 : c ∈ (s.dropWhile isJsWs).reverse.dropWhile isJsWs :=
    mem_dropWhile_of_not _ _ _ m2 h1
  have m4 : c ∈ jsTrim s := by
    rw [jsTrim]
    exact List.mem_reverse.mpr m3
  intro hnil
  rw [hnil] at m4
  simp at m4

theorem jsTrim_eq_self_of (s : Str) (c d : Char) (hc : s.head? = some c)
    (h1 : isJsWs c = false) (hd : s.getLast? = some d) (h3 : isJsWs d = false) :
    jsTrim s = s := by
  cases s with
  | nil => simp at hc
  | cons a t =>
    obtain rfl : a = c := by simpa using hc
    have hrev : (a :: t).reverse.head? = some d := by rw [List.head?_reverse]; exact hd
    rw [jsTrim, List.dropWhile_cons, if_neg (by simp [h1])]
    cases hrv : (a :: t).reverse with
    | nil => simp at hrv
    | cons e u =>
      rw [hrv] at hrev
      obtain rfl : e = d := by simpa using hrev
      rw [List.dropWhile_cons, if_neg (by simp [h3]), ← hrv, List.reverse_reverse]

theorem isPrefixOf_append_self (l r : Str) : l.isPrefixOf (l ++ r) = true := by
  rw [List.isPrefixOf_iff_prefix]
  exact List.prefix_append l r

theorem skipWs_cons_of_not (c : Char) (t : Str) (h : isJsonWs c = false) :
    skipWs (c :: t) = c :: t := by
  rw [skipWs, List.dropWhile_cons, if_neg (by simp [h])]

theorem hexVal_hexDigitChar_fin : ∀ n : Fin 16, hexVal (hexDigitChar n.1) = some n.1 := by decide

theorem psb_quote (fuel : Nat) (rest : Str) :
    parseStringBody (fuel + 1) ('"' :: rest) = some ([], rest) := rfl

theorem psb_escape (fuel : Nat) (e ec : Char) (tail : Str) (hu : ¬e = 'u')
    (he : escCharOf e = some ec) :
    parseStringBody (fuel + 1) ('\\' :: e :: tail) =
      (parseStringBody fuel tail).map (fun p => (ec :: p.1, p.2)) := by
  rw [parseStringBody.eq_def]
  simp [hu, he]

theorem psb_u (fuel : Nat) (r : Str) (ch : Char) (r2 : Str) (h : hexVal4 r = some (ch, r2)) :
    parseStringBody (fuel + 1) ('\\' :: 'u' :: r) =
      (parseStringBody fuel r2).map (fun p => (ch :: p.1, p.2)) := by
  rw [parseStringBody.eq_def]
  simp [h]

theorem psb_other (fuel : Nat) (c : Char) (rest : Str) (h1 : ¬c = '"') (h2 : ¬c = '\\') :
    parseStringBody (fuel + 1) (c :: rest) =
      (parseStringBody fuel rest).map (fun p => (c :: p.1, p.2)) := by
  rw [parseStringBody.eq_def]
  simp [h1, h2]

theorem parseStringBody_encChar (fuel : Nat) (c : Char) (tail : Str) :
    parseStringBody (fuel + 1) (encChar c ++ tail) =
      (parseStringBody fuel tail).map (fun p => (c :: p.1, p.2)) := by
  rw [encChar]
  split_ifs with h1 h2 h3 h4 h5 h6 h7 h8
  · subst h1; exact psb_escape _ _ _ _ (by decide) (by decide)
  · subst h2; exact psb_escape _ _ _ _ (by decide) (by decide)
  · rw [h3]; exact psb_escape _ _ _ _ (by decide) (by decide)
  · subst h4; exact psb_escape _ _ _ _ (by decide) (by decide)
  · subst h5; exact psb_escape _ _ _ _ (by decide) (by decide)
  · rw [h6]; exact psb_escape _ _ _ _ (by decide) (by decide)
  · subst h7; exact psb_escape _ _ _ _ (by decide) (by decide)
  · have e3 := hexVal_hexDigitChar_fin ⟨c.toNat / 16, by omega⟩
    have e4 := hexVal_hexDigitChar_fin ⟨c.toNat % 16, by omega⟩
    have h0 : hexVal '0' = some 0 := by decide
    have hx : hexVal4 ('0' :: '0' :: hexDigitChar (c.toNat / 16) :: hexDigitChar (c.toNat % 16) :: tail) =
        some (Char.ofNat (((0 * 16 + 0) * 16 + c.toNat / 16) * 16 + c.toNat % 16), tail) := by
      simp [hexVal4, h0, e3, e4]
    have hv : ((0 * 16 + 0) * 16 + c.toNat / 16) * 16 + c.toNat % 16 = c.toNat := by omega
    rw [hv] at hx
    simp only [List.cons_append, List.nil_append]
    rw [psb_u _ _ _ _ hx, Char.ofNat_toNat]
  · simp only [List.cons_append, List.nil_append]
    exact psb_other _ c tail h1 h2

theorem parseStringBody_encode (s : Str) : ∀ fuel rest, s.length + 1 ≤ fuel →
    parseStringBody fuel (encodeStringBody s ++ '"' :: rest) = some (s, rest) := by
  induction s with
  | nil =>
    intro fuel rest hf
    obtain ⟨f, rfl⟩ : ∃ f, fuel = f + 1 := ⟨fuel - 1, by omega⟩
    simpa [encodeStringBody] using psb_quote f rest
  | cons c t ih =>
    intro fuel rest hf
    obtain ⟨f, rfl⟩ : ∃ f, fuel = f + 1 := ⟨fuel - 1, by omega⟩
    have he : encodeStringBody (c :: t) = encChar c ++ encodeStringBody t := by
      simp [encodeStringBody]
    rw [he, List.append_assoc, parseStringBody_encChar f c _,
      ih f rest (by simp only [List.length_cons] at hf; omega)]
    rfl

theorem length_le_encodeStringBody (s : Str) : s.length ≤ (encodeStringBody s).length := by
  induction s with
  | nil => simp [encodeStringBody]
  | cons c t ih =>
    have he : encodeStringBody (c :: t) = encChar c ++ encodeStringBody t := by
      simp [encodeStringBody]
    have h1 : 1 ≤ (encChar c).length := by
      rw [encChar]; split_ifs <;> simp
    rw [he]
    simp only [List.length_cons, List.length_append]
    omega

theorem psb_at_callsite (k tail : Str) :
    parseStringBody ((encodeStringBody k ++ '"' :: tail).length + 1)
      (encodeStringBody k ++ '"' :: tail) = some (k, tail) := by
  apply parseStringBody_encode
  have := length_le_encodeStringBody k
  simp only [List.length_append, List.length_cons]
  omega

theorem stringify_head_cases (v : JsonValue) (hn : noNum v = true) :
    ∃ c t, stringify v = c :: t ∧ isJsonWs c = false ∧ ¬c = ']' ∧ ¬c = '}' := by
  cases v with
  | num raw => simp [noNum] at hn
  | null => exact ⟨'n', _, rfl, rfl, by decide, by decide⟩
  | bool b =>
    cases b with
    | false => exact ⟨'f', _, rfl, rfl, by decide, by decide⟩
    | true => exact ⟨'t', _, rfl, rfl, by decide, by decide⟩
  | str s => refine ⟨'"', _, rfl, rfl, by decide, by decide⟩
  | arr es => refine ⟨'[', _, rfl, rfl, by decide, by decide⟩
  | obj fs => refine ⟨'{', _, rfl, rfl, by decide, by decide⟩

theorem noNum_of_mem_items : ∀ es, noNumItems es = true → ∀ e ∈ es, noNum e = true := by
  intro es
  induction es with
  | nil => intro _ e he; simp at he
  | cons v vs ih =>
    intro h e he
    have e1 : noNumItems (v :: vs) = (noNum v && noNumItems vs) := rfl
    rw [e1, Bool.and_eq_true] at h
    rcases List.mem_cons.mp he with rfl | hm
    · exact h.1
    · exact ih h.2 e hm

theorem noNum_of_mem_fields : ∀ fs, noNumFields fs = true → ∀ kv ∈ fs, noNum kv.2 = true := by
  intro fs
  induction fs with
  | nil => intro _ kv hkv; simp at hkv
  | cons p ps ih =>
    obtain ⟨k, v⟩ := p
    intro h kv hkv
    have e1 : noNumFields ((k, v) :: ps) = (noNum v && noNumFields ps) := rfl
    rw [e1, Bool.and_eq_true] at h
    rcases List.mem_cons.mp hkv with rfl | hm
    · exact h.1
    · exact ih h.2 kv hm

theorem encodeString_length (k : Str) : 2 ≤ (encodeString k).length := by
  rw [encodeString]
  simp only [List.length_cons, List.length_append]
  omega

theorem itemsFuel_le : ∀ es : List JsonValue,
    (∀ e ∈ es, parseFuelNeeded e + 1 ≤ 2 * (stringify e).length) →
    itemsFuel es ≤ 2 * (stringifyItems es).length + 1 := by
  intro es
  induction es with
  | nil => intro _; simp [itemsFuel, stringifyItems]
  | cons v vs ih =>
    intro h
    have hv := h v (by simp)
    cases vs with
    | nil =>
      have e1 : itemsFuel [v] = 1 + parseFuelNeeded v + 1 := rfl
      have e2 : stringifyItems [v] = stringify v := rfl
      rw [e1, e2]
      omega
    | cons w ws =>
      have ih2 := ih (fun e he => h e (List.mem_cons_of_mem _ he))
      have e1 : itemsFuel (v :: w :: ws) = 1 + parseFuelNeeded v + itemsFuel (w :: ws) := rfl
      have e2 : stringifyItems (v :: w :: ws) = stringify v ++ ',' :: stringifyItems (w :: ws) := rfl
      rw [e1, e2]
      simp only [List.length_append, List.length_cons]
      omega

theorem fieldsFuel_le : ∀ fs : List (Str × JsonValue),
    (∀ kv ∈ fs, parseFuelNeeded kv.2 + 1 ≤ 2 * (stringify kv.2).length) →
    fieldsFuel fs ≤ 2 * (stringifyFields fs).length + 1 := by
  intro fs
  induction fs with
  | nil => intro _; simp [fieldsFuel, stringifyFields]
  | cons p ps ih =>
    obtain ⟨k, v⟩ := p
    intro h
    have hv : parseFuelNeeded v + 1 ≤ 2 * (stringify v).length := h (k, v) (by simp)
    have hk := encodeString_length k
    cases ps with
    | nil =>
      have e1 : fieldsFuel [(k, v)] = 1 + parseFuelNeeded v + 1 := rfl
      have e2 : stringifyFields [(k, v)] = encodeString k ++ ':' :: stringify v := rfl
      rw [e1, e2]
      simp only [List.length_append, List.length_cons]
      omega
    | cons q qs =>
      have ih2 := ih (fun kv hkv => h kv (List.mem_cons_of_mem _ hkv))
      have e1 : fieldsFuel ((k, v) :: q :: qs) = 1 + parseFuelNeeded v + fieldsFuel (q :: qs) := by
        obtain ⟨k2, v2⟩ := q
        rfl
      have e2 : stringifyFields ((k, v) :: q :: qs)
          = encodeString k ++ ':' :: stringify v ++ ',' :: stringifyFields (q :: qs) := by
        obtain ⟨k2, v2⟩ := q
        rfl
      rw [e1, e2]
      simp only [List.length_append, List.length_cons]
      omega

theorem parseFuelNeeded_le : ∀ n v, sizeOf v ≤ n → noNum v = true →
    parseFuelNeeded v + 1 ≤ 2 * (stringify v).length := by
  intro n
  induction n with
  | zero =>
    intro v hv _
    have h1 : 1 ≤ sizeOf v := by cases v <;> simp
    omega
  | succ n ih =>
    intro v hv hn
    cases v with
    | null => decide
    | bool b => cases b <;> decide
    | num raw => simp [noNum] at hn
    | str s =>
      have e1 : parseFuelNeeded (JsonValue.str s) = 1 := rfl
      have e2 : stringify (JsonValue.str s) = encodeString s := rfl
      rw [e1, e2]
      have := encodeString_length s
      omega
    | arr es =>
      have hno : noNumItems es = true := by
        have e0 : noNum (JsonValue.arr es) = noNumItems es := rfl
        rw [e0] at hn
        exact hn
      have hpt : ∀ e ∈ es, parseFuelNeeded e + 1 ≤ 2 * (stringify e).length := by
        intro e he
        apply ih e ?_ (noNum_of_mem_items _ hno e he)
        have h1 := List.sizeOf_lt_of_mem he
        have h2 : sizeOf (JsonValue.arr es) = 1 + sizeOf es := by simp
        omega
      have hit := itemsFuel_le es hpt
      have e1 : parseFuelNeeded (JsonValue.arr es) = 1 + itemsFuel es := rfl
      have e2 : stringify (JsonValue.arr es) = '[' :: stringifyItems es ++ [']'] := rfl
      rw [e1, e2]
      simp only [List.length_cons, List.length_append]
      omega
    | obj fs =>
      have hno : noNumFields fs = true := by
        have e0 : noNum (JsonValue.obj fs) = noNumFields fs := rfl
        rw [e0] at hn
        exact hn
      have hpt : ∀ kv ∈ fs, parseFuelNeeded kv.2 + 1 ≤ 2 * (stringify kv.2).length := by
        intro kv hkv
        apply ih kv.2 ?_ (noNum_of_mem_fields _ hno kv hkv)
        have h1 := List.sizeOf_lt_of_mem hkv
        have h2 : sizeOf (JsonValue.obj fs) = 1 + sizeOf fs := by simp
        have h3 : sizeOf kv.2 < sizeOf kv := by
          obtain ⟨a, b⟩ := kv
          simp only [Prod.mk.sizeOf_spec]
          omega
        omega
      have hit := fieldsFuel_le fs hpt
      have e1 : parseFuelNeeded (JsonValue.obj fs) = 1 + fieldsFuel fs := rfl
      have e2 : stringify (JsonValue.obj fs) = '{' :: stringifyFields fs ++ ['}'] := rfl
      rw [e1, e2]
      simp only [List.length_cons, List.length_append]
      omega

theorem parseArrItems_encode : ∀ es : List JsonValue, (∀ e ∈ es, RTP e) → es ≠ [] →
    ∀ fuel, itemsFuel es ≤ fuel → ∀ rest,
      parseArrItems fuel (stringifyItems es ++ ']' :: rest) = some (es, rest) := by
  intro es
  induction es with
  | nil => intro _ hne; exact absurd rfl hne
  | cons v vs ih =>
    intro h _ fuel hf rest
    have hRv := h v (by simp)
    cases vs with
    | nil =>
      have e0 : itemsFuel [v] = 1 + parseFuelNeeded v + 1 := rfl
      rw [e0] at hf
      obtain ⟨f, rfl⟩ : ∃ f, fuel = f + 1 := ⟨fuel - 1, by omega⟩
      have e2 : stringifyItems [v] = stringify v := rfl
      rw [e2, parseArrItems, hRv f (by omega) (']' :: rest)]
      simp [skipWs_cons_of_not ']' rest (by decide)]
    | cons w ws =>
      have e0 : itemsFuel (v :: w :: ws) = 1 + parseFuelNeeded v + itemsFuel (w :: ws) := rfl
      rw [e0] at hf
      obtain ⟨f, rfl⟩ : ∃ f, fuel = f + 1 := ⟨fuel - 1, by omega⟩
      have e2 : stringifyItems (v :: w :: ws) ++ ']' :: rest
          = stringify v ++ (',' :: (stringifyItems (w :: ws) ++ ']' :: rest)) := by
        have e3 : stringifyItems (v :: w :: ws) = stringify v ++ ',' :: stringifyItems (w :: ws) := rfl
        rw [e3]
        simp [List.append_assoc]
      rw [e2, parseArrItems, hRv f (by omega) _]
      have ihv := ih (fun e he => h e (List.mem_cons_of_mem _ he)) (by simp) f (by omega) rest
      simp [skipWs_cons_of_not ',' _ (by decide), ihv]

theorem parseObjItems_encode : ∀ fs : List (Str × JsonValue), (∀ kv ∈ fs, RTP kv.2) → fs ≠ [] →
    ∀ fuel, fieldsFuel fs ≤ fuel → ∀ rest,
      parseObjItems fuel (stringifyFields fs ++ '}' :: rest) = some (fs, rest) := by
  intro fs
  induction fs with
  | nil => intro _ hne; exact absurd rfl hne
  | cons p ps ih =>
    obtain ⟨k, v⟩ := p
    intro h _ fuel hf rest
    have hRv : RTP v := h (k, v) (by simp)
    cases ps with
    | nil =>
      have e0 : fieldsFuel [(k, v)] = 1 + parseFuelNeeded v + 1 := rfl
      rw [e0] at hf
      obtain ⟨f, rfl⟩ : ∃ f, fuel = f + 1 := ⟨fuel - 1, by omega⟩
      have e2 : stringifyFields [(k, v)] ++ '}' :: rest
          = '"' :: (encodeStringBody k ++ '"' :: (':' :: (stringify v ++ '}' :: rest))) := by
        have e3 : stringifyFields [(k, v)] = encodeString k ++ ':' :: stringify v := rfl
        rw [e3, encodeString]
        simp [List.append_assoc]
      rw [e2, parseObjItems]
      simp only [psb_at_callsite k (':' :: (stringify v ++ '}' :: rest))]
      simp [skipWs_cons_of_not ':' _ (by decide), skipWs_cons_of_not '}' rest (by decide),
        hRv f (by omega) ('}' :: rest)]
    | cons q qs =>
      have e0 : fieldsFuel ((k, v) :: q :: qs) = 1 + parseFuelNeeded v + fieldsFuel (q :: qs) := by
        obtain ⟨k2, v2⟩ := q
        rfl
      rw [e0] at hf
      obtain ⟨f, rfl⟩ : ∃ f, fuel = f + 1 := ⟨fuel - 1, by omega⟩
      have e2 : stringifyFields ((k, v) :: q :: qs) ++ '}' :: rest
          = '"' :: (encodeStringBody k ++ '"' ::
              (':' :: (stringify v ++ ',' :: (stringifyFields (q :: qs) ++ '}' :: rest)))) := by
        have e3 : stringifyFields ((k, v) :: q :: qs)
            = encodeString k ++ ':' :: stringify v ++ ',' :: stringifyFields (q :: qs) := by
          obtain ⟨k2, v2⟩ := q
          rfl
        rw [e3, encodeString]
        simp [List.append_assoc]
      have hkey : ∃ Y, stringifyFields (q :: qs) = '"' :: Y := by
        obtain ⟨k2, v2⟩ := q
        cases qs with
        | nil => exact ⟨(encodeStringBody k2 ++ ['"']) ++ ':' :: stringify v2, rfl⟩
        | cons r rs =>
          obtain ⟨k3, v3⟩ := r
          exact ⟨(encodeStringBody k2 ++ ['"']) ++
            ':' :: stringify v2 ++ ',' :: stringifyFields ((k3, v3) :: rs), rfl⟩
      obtain ⟨Y, hY⟩ := hkey
      have ihv := ih (fun kv hkv => h kv (List.mem_cons_of_mem _ hkv)) (by simp) f (by omega) rest
      rw [e2, parseObjItems]
      simp only [psb_at_callsite k (':' :: (stringify v ++ ',' :: (stringifyFields (q :: qs) ++ '}' :: rest)))]
      have hskip2 : skipWs (stringifyFields (q :: qs) ++ '}' :: rest)
          = stringifyFields (q :: qs) ++ '}' :: rest := by
        rw [hY]
        exact skipWs_cons_of_not '"' _ (by decide)
      simp [skipWs_cons_of_not ':' _ (by decide), skipWs_cons_of_not ',' _ (by decide),
        hRv f (by omega) _, hskip2, ihv]

theorem parseValue_stringify : ∀ n v, sizeOf v ≤ n → noNum v = true → RTP v := by
  intro n
  induction n with
  | zero =>
    intro v hv _
    have h1 : 1 ≤ sizeOf v := by cases v <;> simp
    omega
  | succ n ih =>
    intro v hv hn fuel hfu rest
    have hone : 1 ≤ parseFuelNeeded v := by
      cases v with
      | null => decide
      | bool b => cases b <;> decide
      | num raw =>
        have e1 : parseFuelNeeded (JsonValue.num raw) = 1 := rfl
        omega
      | str s =>
        have e1 : parseFuelNeeded (JsonValue.str s) = 1 := rfl
        omega
      | arr es =>
        have e1 : parseFuelNeeded (JsonValue.arr es) = 1 + itemsFuel es := rfl
        omega
      | obj fs =>
        have e1 : parseFuelNeeded (JsonValue.obj fs) = 1 + fieldsFuel fs := rfl
        omega
    obtain ⟨f, rfl⟩ : ∃ f, fuel = f + 1 := ⟨fuel - 1, by omega⟩
    cases v with
    | null =>
      have e1 : stringify JsonValue.null ++ rest = 'n' :: (("ull".data : Str) ++ rest) := rfl
      rw [e1, parseValue, skipWs_cons_of_not 'n' _ (by decide)]
      simp [expectLit, isPrefixOf_append_self, List.drop_left]
    | bool b =>
      cases b with
      | true =>
        have e1 : stringify (JsonValue.bool true) ++ rest = 't' :: (("rue".data : Str) ++ rest) := rfl
        rw [e1, parseValue, skipWs_cons_of_not 't' _ (by decide)]
        simp [expectLit, isPrefixOf_append_self, List.drop_left]
      | false =>
        have e1 : stringify (JsonValue.bool false) ++ rest
            = 'f' :: (("alse".data : Str) ++ rest) := rfl
        rw [e1, parseValue, skipWs_cons_of_not 'f' _ (by decide)]
        simp [expectLit, isPrefixOf_append_self, List.drop_left]
    | num raw => simp [noNum] at hn
    | str s =>
      have e1 : stringify (JsonValue.str s) ++ rest
          = '"' :: (encodeStringBody s ++ '"' :: rest) := by
        have e2 : stringify (JsonValue.str s) = '"' :: encodeStringBody s ++ ['"'] := rfl
        rw [e2]
        simp [List.append_assoc]
      rw [e1, parseValue, skipWs_cons_of_not '"' _ (by decide)]
      simp
      exact parseStringBody_encode s _ rest (by have := length_le_encodeStringBody s; omega)
    | arr es =>
      cases es with
      | nil =>
        have e1 : stringify (JsonValue.arr []) ++ rest = '[' :: ']' :: rest := rfl
        rw [e1, parseValue, skipWs_cons_of_not '[' _ (by decide)]
        simp [skipWs_cons_of_not ']' rest (by decide)]
      | cons v0 vs =>
        have hno : noNumItems (v0 :: vs) = true := by
          have e0 : noNum (JsonValue.arr (v0 :: vs)) = noNumItems (v0 :: vs) := rfl
          rw [e0] at hn
          exact hn
        have hmem : ∀ e ∈ v0 :: vs, RTP e := by
          intro e he
          apply ih e ?_ (noNum_of_mem_items _ hno e he)
          have h1 := List.sizeOf_lt_of_mem he
          have h2 : sizeOf (JsonValue.arr (v0 :: vs)) = 1 + sizeOf (v0 :: vs) := by simp
          omega
        have hfu2 : itemsFuel (v0 :: vs) ≤ f := by
          have e1 : parseFuelNeeded (JsonValue.arr (v0 :: vs)) = 1 + itemsFuel (v0 :: vs) := rfl
          omega
        have harr := parseArrItems_encode (v0 :: vs) hmem (by simp) f hfu2 rest
        obtain ⟨c0, t0, he0, hw0, hne0, _⟩ :=
          stringify_head_cases v0 (noNum_of_mem_items _ hno v0 (by simp))
        have e2 : ∃ X, stringifyItems (v0 :: vs) = stringify v0 ++ X := by
          cases vs with
          | nil => exact ⟨[], by simp [stringifyItems]⟩
          | cons w ws => exact ⟨',' :: stringifyItems (w :: ws), rfl⟩
        obtain ⟨X, hX⟩ := e2
        have e3 : stringifyItems (v0 :: vs) ++ ']' :: rest = c0 :: (t0 ++ (X ++ ']' :: rest)) := by
          rw [hX, he0]
          simp [List.append_assoc]
        have hskip : skipWs (stringifyItems (v0 :: vs) ++ ']' :: rest)
            = stringifyItems (v0 :: vs) ++ ']' :: rest := by
          rw [e3]
          exact skipWs_cons_of_not c0 _ hw0
        have hhead : (stringifyItems (v0 :: vs) ++ ']' :: rest).head? = some c0 := by
          rw [e3]
          rfl
        have e1 : stringify (JsonValue.arr (v0 :: vs)) ++ rest
            = '[' :: (stringifyItems (v0 :: vs) ++ ']' :: rest) := by
          have e4 : stringify (JsonValue.arr (v0 :: vs))
              = '[' :: stringifyItems (v0 :: vs) ++ [']'] := rfl
          rw [e4]
          simp [List.append_assoc]
        rw [e1, parseValue, skipWs_cons_of_not '[' _ (by decide)]
        simp [hskip, hhead, hne0, harr]
    | obj fs =>
      cases fs with
      | nil =>
        have e1 : stringify (JsonValue.obj []) ++ rest = '{' :: '}' :: rest := rfl
        rw [e1, parseValue, skipWs_cons_of_not '{' _ (by decide)]
        simp [skipWs_cons_of_not '}' rest (by decide)]
      | cons p ps =>
        obtain ⟨k0, v0⟩ := p
        have hno : noNumFields ((k0, v0) :: ps) = true := by
          have e0 : noNum (JsonValue.obj ((k0, v0) :: ps)) = noNumFields ((k0, v0) :: ps) := rfl
          rw [e0] at hn
          exact hn
        have hmem : ∀ kv ∈ (k0, v0) :: ps, RTP kv.2 := by
          intro kv hkv
          apply ih kv.2 ?_ (noNum_of_mem_fields _ hno kv hkv)
          have h1 := List.sizeOf_lt_of_mem hkv
          have h2 : sizeOf (JsonValue.obj ((k0, v0) :: ps)) = 1 + sizeOf ((k0, v0) :: ps) := by simp
          have h3 : sizeOf kv.2 < sizeOf kv := by
            obtain ⟨a, b⟩ := kv
            simp only [Prod.mk.sizeOf_spec]
            omega
          omega
        have hfu2 : fieldsFuel ((k0, v0) :: ps) ≤ f := by
          have e1 : parseFuelNeeded (JsonValue.obj ((k0, v0) :: ps))
              = 1 + fieldsFuel ((k0, v0) :: ps) := rfl
          omega
        have hobj := parseObjItems_encode ((k0, v0) :: ps) hmem (by simp) f hfu2 rest
        have hkey : ∃ Y, stringifyFields ((k0, v0) :: ps) = '"' :: Y := by
          cases ps with
          | nil => exact ⟨(encodeStringBody k0 ++ ['"']) ++ ':' :: stringify v0, rfl⟩
          | cons r rs =>
            obtain ⟨k3, v3⟩ := r
            exact ⟨(encodeStringBody k0 ++ ['"']) ++
              ':' :: stringify v0 ++ ',' :: stringifyFields ((k3, v3) :: rs), rfl⟩
        obtain ⟨Y, hY⟩ := hkey
        have e3 : stringifyFields ((k0, v0) :: ps) ++ '}' :: rest = '"' :: (Y ++ '}' :: rest) := by
          rw [hY]
          rfl
        have hskip : skipWs (stringifyFields ((k0, v0) :: ps) ++ '}' :: rest)
            = stringifyFields ((k0, v0) :: ps) ++ '}' :: rest := by
          rw [e3]
          exact skipWs_cons_of_not '"' _ (by decide)
        have hhead : (stringifyFields ((k0, v0) :: ps) ++ '}' :: rest).head? = some '"' := by
          rw [e3]
          rfl
        have e1 : stringify (JsonValue.obj ((k0, v0) :: ps)) ++ rest
            = '{' :: (stringifyFields ((k0, v0) :: ps) ++ '}' :: rest) := by
          have e4 : stringify (JsonValue.obj ((k0, v0) :: ps))
              = '{' :: stringifyFields ((k0, v0) :: ps) ++ ['}'] := rfl
          rw [e4]
          simp [List.append_assoc]
        rw [e1, parseValue, skipWs_cons_of_not '{' _ (by decide)]
        simp [hskip, hhead, hobj]

theorem jsonParse_stringify (v : JsonValue) (hn : noNum v = true) :
    jsonParse (stringify v) = some v := by
  have hb := parseFuelNeeded_le (sizeOf v) v le_rfl hn
  have hr := parseValue_stringify (sizeOf v) v le_rfl hn (2 * (stringify v).length + 4)
    (by omega) []
  rw [List.append_nil] at hr
  rw [jsonParse, hr]
  rfl

theorem drop6_data_marker (l2 : Str) : (("data: ".data : Str) ++ l2).drop 6 = l2 := by
  have h := List.drop_left (("data: ".data : Str)) l2
  have e : (("data: ".data : Str)).length = 6 := rfl
  rw [e] at h
  exact h

theorem processLine_dataLine (acc s : Str) :
    processLine acc (sseDataLine s) = acc ++ s := by
  have hne : (jsTrim (sseDataLine s)).isEmpty = false := by
    have h := jsTrim_ne_nil (sseDataLine s) 'd'
      (by rw [sseDataLine]; exact List.mem_append_left _ (by decide)) (by decide)
    cases hh : (jsTrim (sseDataLine s)) with
    | nil => exact absurd hh h
    | cons a t => rfl
  have hdone : (sseDataLine s == ("data: [DONE]".data)) = false := by
    rw [beq_eq_false_iff_ne]
    intro heq
    have h1 := congrArg (fun l => l.drop 6) heq
    simp only [sseDataLine] at h1
    rw [drop6_data_marker] at h1
    have h3 : (stringify (.obj [(("response".data), JsonValue.str s)])).head? = some '{' := rfl
    rw [h1] at h3
    simp at h3
  have hpref : payloadOf (sseDataLine s)
      = stringify (.obj [(("response".data), JsonValue.str s)]) := by
    rw [payloadOf, sseDataLine, if_pos (isPrefixOf_append_self _ _), drop6_data_marker]
    apply jsTrim_eq_self_of _ '{' '}'
    · rfl
    · decide
    · show (('{' :: stringifyFields [(("response".data), JsonValue.str s)]) ++ ['}']).getLast?
        = some '}'
      exact List.getLast?_concat _
    · decide
  have hnn : noNum (.obj [(("response".data), JsonValue.str s)]) = true := rfl
  have hoe : (stringify (.obj [(("response".data), JsonValue.str s)])).isEmpty = false := rfl
  have hgf : jsGetField (.obj [(("response".data), JsonValue.str s)]) ("response".data)
      = some (JsonValue.str s) := rfl
  rw [processLine, if_neg (by simp [hne, hdone])]
  rw [hpref]
  rw [if_neg (by simp [hoe])]
  rw [jsonParse_stringify _ hnn]
  cases s with
  | nil => simp [hgf, jsTruthy]
  | cons c t => simp [hgf, jsTruthy, jsToString]

theorem processLine_noparse (acc l : Str) (h : jsonParse (payloadOf l) = none) :
    processLine acc l = acc := by
  rw [processLine]
  by_cases h1 : ((jsTrim l).isEmpty || l == ("data: [DONE]".data)) = true
  · rw [if_pos h1]
  · rw [if_neg h1]
    by_cases h2 : (payloadOf l).isEmpty = true
    · rw [if_pos h2]
    · rw [if_neg h2, h]

theorem accumulator_concat_aux :
    ∀ (entries : List (Str ⊕ Str)) (acc : Str),
      (∀ l ∈ entries, ∀ raw, l = Sum.inr raw → jsonParse (payloadOf raw) = none) →
      (entries.map lineOfEntry).foldl processLine acc = acc ++ (goodPayloads entries).flatten := by
  intro entries
  induction entries with
  | nil => intro acc _; simp [goodPayloads]
  | cons e es ih =>
    intro acc h
    cases e with
    | inl s =>
      have e1 : goodPayloads (Sum.inl s :: es) = s :: goodPayloads es := rfl
      simp only [List.map_cons, List.foldl_cons, lineOfEntry, e1, List.flatten_cons]
      rw [processLine_dataLine]
      rw [ih (acc ++ s) (fun l hl => h l (List.mem_cons_of_mem _ hl))]
      simp [List.append_assoc]
    | inr l =>
      have e1 : goodPayloads (Sum.inr l :: es) = goodPayloads es := rfl
      simp only [List.map_cons, List.foldl_cons, lineOfEntry, e1]
      rw [processLine_noparse acc l (h _ (by simp) l rfl)]
      exact ih acc (fun l2 hl => h l2 (List.mem_cons_of_mem _ hl))

/-- C1: the claim says the SSE line parser yields the same lines and the same
    accumulated response text for every byte chunking, including splits inside
    a multi-byte character.  The part_001 transform constructs a fresh
    `TextDecoder` for every chunk (line 284), so a euro sign split across two
    chunks decodes to U+FFFD and the accumulated text differs from the
    unsplit chunking, contradicting the claim; the sibling revision
    `src/index.ts` keeps one decoder across reads, which is the specified
    behaviour.  This theorem evaluates the model at the failing input. -/
theorem c1_multibyte_split_changes_accumulated_text :
    accumulatedText [euroChunk1 ++ euroChunk2] = ("€".data) ∧
    accumulatedText [euroChunk1, euroChunk2] = [replacementChar] ∧
    ¬accumulatedText [euroChunk1, euroChunk2] = accumulatedText [euroChunk1 ++ euroChunk2] := by
  refine ⟨rfl, rfl, by decide⟩

/-- C5: a merged message list with no system-role message gets exactly one
    system message, the fixed default, prepended at index 0; a list that
    already has one is left entirely unchanged. -/
theorem c5_system_prompt_invariant (messages : List JsonValue) :
    ((messages.countP isSystemMessage = 0) →
      ensureSystemPrompt messages = defaultSystemMessage :: messages ∧
      (ensureSystemPrompt messages).countP isSystemMessage = 1 ∧
      (ensureSystemPrompt messages).head? = some defaultSystemMessage) ∧
    ((messages.countP isSystemMessage ≠ 0) → ensureSystemPrompt messages = messages) := by
  constructor
  · intro h0
    have hany : messages.any isSystemMessage = false := by
      rw [List.any_eq_false]
      intro x hx
      have := List.countP_eq_zero.mp h0 x hx
      simpa using this
    have he : ensureSystemPrompt messages = defaultSystemMessage :: messages := by
      rw [ensureSystemPrompt, if_neg (by simp [hany])]
    refine ⟨he, ?_, by rw [he]; rfl⟩
    rw [he, List.countP_cons]
    simp [h0, show isSystemMessage defaultSystemMessage = true from rfl]
  · intro hne
    cases hany : messages.any isSystemMessage with
    | false =>
      exfalso
      apply hne
      rw [List.countP_eq_zero]
      intro a ha
      have := List.any_eq_false.mp hany a ha
      simpa using this
    | true => rw [ensureSystemPrompt, if_pos (by simp [hany])]

/-- C5 witness at the empty list. -/
theorem c5_system_prompt_invariant_witness :
    ensureSystemPrompt [] = [defaultSystemMessage] ∧
    (ensureSystemPrompt ([] : List JsonValue)).countP isSystemMessage = 1 ∧
    (ensureSystemPrompt ([] : List JsonValue)).head? = some defaultSystemMessage :=
  (c5_system_prompt_invariant []).1 rfl

/-- C7: the chunks enqueued for the HTTP client are exactly the upstream
    chunks, in order, for every accumulation state; in particular the parse
    outcomes of the accumulator have no effect on the client-visible bytes
    (the transform enqueues each chunk before any decoding or parsing). -/
theorem c7_client_stream_passthrough (st : TState) (chunks : List (List Nat)) :
    (runTransform st chunks).1 = chunks ∧
    ∀ st2 : TState, (runTransform st2 chunks).1 = (runTransform st chunks).1 := by
  have main : ∀ (cs : List (List Nat)) (s : TState), (runTransform s cs).1 = cs := by
    intro cs
    induction cs with
    | nil => intro s; rfl
    | cons c cs2 ih =>
      intro s
      show (transform001 s c).1 ++ (runTransform (transform001 s c).2 cs2).1 = c :: cs2
      rw [ih]
      rfl
  exact ⟨main chunks st, fun st2 => by rw [main chunks st2, main chunks st]⟩

/-- C10: when the accumulated response text is empty once the stream finishes
    (after the final buffer drain), no assistant message is appended, the user
    record value is untouched and no KV write is scheduled. -/
theorem c10_empty_response_no_write (userId chatId : Str) (messages : List JsonValue)
    (userChats : JsonValue) (st : TState) (h : flushText st = []) :
    flushStore001 userId chatId messages userChats st = ⟨messages, userChats, none⟩ := by
  rw [flushStore001, h]
  rfl

/-- C10 witness: a flush whose leftover buffer fails to parse schedules no
    write and leaves everything unchanged. -/
theorem c10_empty_response_no_write_witness :
    flushStore001 ("u".data) ("c".data) [] (.obj []) ⟨[], ("garbage".data)⟩
      = ⟨[], .obj [], none⟩ :=
  c10_empty_response_no_write ("u".data) ("c".data) [] (.obj []) ⟨[], ("garbage".data)⟩ rfl

/-- C8: a request whose body is not valid JSON, or whose userId or chatId is
    missing, empty or not a string, is answered 400 with an empty effect
    trace: the KV store is neither read nor written and the model endpoint is
    never invoked. -/
theorem c8_validation_rejects_before_side_effects (body? : Option JsonValue) (kv : KvRead)
    (aiChunks : List (List Nat))
    (h : body? = none ∨ ∃ body, body? = some body ∧
        ((jsTruthy body && jsIsObjectType body) = false ∨
         validStringField (jsGetField body ("userId".data)) = none ∨
         validStringField (jsGetField body ("chatId".data)) = none)) :
    (handleChatRequest body? kv aiChunks).status = 400 ∧
    (handleChatRequest body? kv aiChunks).effects = [] := by
  rcases h with rfl | ⟨body, rfl, hcase⟩
  · exact ⟨rfl, rfl⟩
  · rw [handleChatRequest]
    cases hb : (jsTruthy body && jsIsObjectType body) with
    | false => simp [hb]
    | true =>
      rcases hcase with hb2 | hu | hc
      · rw [hb] at hb2
        simp at hb2
      · cases hvu : validStringField (jsGetField body ("userId".data)) with
        | none => simp [hb, hvu]
        | some u =>
          rw [hvu] at hu
          simp at hu
      · cases hvu : validStringField (jsGetField body ("userId".data)) with
        | none => simp [hb, hvu]
        | some u => simp [hb, hvu, hc]

/-- C8 witness: a body with a userId but no chatId is rejected with no
    side effects. -/
theorem c8_validation_rejects_before_side_effects_witness :
    (handleChatRequest (some (.obj [(("userId".data), .str ("u".data))])) (.ok none) []).status
      = 400 ∧
    (handleChatRequest (some (.obj [(("userId".data), .str ("u".data))])) (.ok none) []).effects
      = [] :=
  c8_validation_rejects_before_side_effects _ _ _ (Or.inr ⟨_, rfl, Or.inr (Or.inr rfl)⟩)

/-- C4: folding the accumulator over a sequence of candidate lines that are
    each either a well-formed `data: {"response": s}` line or a line whose
    payload fails to parse yields exactly the concatenation of the payload
    strings in order; malformed lines are skipped without affecting the rest
    and without aborting the fold. -/
theorem c4_accumulator_concatenates_and_skips_malformed (entries : List (Str ⊕ Str))
    (h : ∀ l ∈ entries, ∀ raw, l = Sum.inr raw → jsonParse (payloadOf raw) = none) :
    (entries.map lineOfEntry).foldl processLine [] = (goodPayloads entries).flatten := by
  have := accumulator_concat_aux entries [] h
  simpa using this

/-- C4 witness: two good token lines around a malformed line accumulate to
    their concatenation. -/
theorem c4_accumulator_concatenates_and_skips_malformed_witness :
    (c4Entries.map lineOfEntry).foldl processLine [] = ("Hello".data) := by
  have h := c4_accumulator_concatenates_and_skips_malformed c4Entries ?hyp
  · exact h.trans rfl
  case hyp =>
    intro l hl raw heq
    simp only [c4Entries, List.mem_cons, List.not_mem_nil, or_false] at hl
    rcases hl with rfl | rfl | rfl
    · simp at heq
    · cases heq
      rfl
    · simp at heq

/-- C9: a `messages` payload that is absent or not an array normalizes to the
    empty list and the request still proceeds (status 200, not rejected); an
    array normalizes elementwise and totally: the normalized content is always
    a string, a bare string becomes a user message with that content, an
    object with no role field gets role `user`, and an object with no content
    field gets the string coercion of the whole object as content. -/
theorem c9_message_normalization_total :
    (∀ inc : Option JsonValue, (∀ ms, ¬inc = some (.arr ms)) → normalizeIncoming inc = []) ∧
    (∀ ms, normalizeIncoming (some (.arr ms)) = ms.map normalizeMessage) ∧
    (∀ m, ∃ s, jsGetField (normalizeMessage m) ("content".data) = some (.str s)) ∧
    (∀ s, normalizeMessage (.str s)
      = .obj [(("role".data), .str ("user".data)), (("content".data), .str s)]) ∧
    (∀ fs, jsGetField (.obj fs) ("role".data) = none →
      jsGetField (normalizeMessage (.obj fs)) ("role".data) = some (.str ("user".data))) ∧
    (∀ fs, jsGetField (.obj fs) ("content".data) = none →
      jsGetField (normalizeMessage (.obj fs)) ("content".data)
        = some (.str (jsToString (.obj fs)))) ∧
    (∀ (u c : Str) (mv : JsonValue), u ≠ [] → c ≠ [] → (∀ ms, ¬mv = .arr ms) →
      (handleChatRequest (some (.obj [(("userId".data), .str u), (("chatId".data), .str c),
          (("messages".data), mv)])) (.ok none) []).status = 200) := by
  refine ⟨?p1, ?p2, ?p3, ?p4, ?p5, ?p6, ?p7⟩
  case p1 =>
    intro inc h
    cases inc with
    | none => rfl
    | some v =>
      cases v with
      | arr es => exact absurd rfl (h es)
      | null => rfl
      | bool b => rfl
      | num raw => rfl
      | str s => rfl
      | obj fs => rfl
  case p2 => intro ms; rfl
  case p3 =>
    intro m
    cases m with
    | str s => exact ⟨s, rfl⟩
    | obj fs => exact ⟨_, rfl⟩
    | arr es => exact ⟨_, rfl⟩
    | null => exact ⟨_, rfl⟩
    | bool b => cases b <;> exact ⟨_, rfl⟩
    | num raw =>
      refine ⟨raw, ?_⟩
      have e : normalizeMessage (.num raw)
          = .obj [(("role".data), .str ("user".data)), (("content".data), .str raw)] := by
        cases hz : numIsZero raw with
        | false => simp [normalizeMessage, jsTruthy, hz, jsIsObjectType, jsToString]
        | true => simp [normalizeMessage, jsTruthy, hz, jsIsObjectType, jsToString]
      rw [e]
      rfl
  case p4 => intro s; rfl
  case p5 =>
    intro fs h
    have e0 : normalizeMessage (.obj fs)
        = .obj [(("role".data), (match jsGetField (.obj fs) ("role".data) with
              | none => JsonValue.str ("user".data)
              | some .null => JsonValue.str ("user".data)
              | some v => v)),
            (("content".data), .str (match jsGetField (.obj fs) ("content".data) with
              | none => jsToString (.obj fs)
              | some .null => jsToString (.obj fs)
              | some v => jsToString v))] := rfl
    rw [e0, h]
    rfl
  case p6 =>
    intro fs h
    have e0 : normalizeMessage (.obj fs)
        = .obj [(("role".data), (match jsGetField (.obj fs) ("role".data) with
              | none => JsonValue.str ("user".data)
              | some .null => JsonValue.str ("user".data)
              | some v => v)),
            (("content".data), .str (match jsGetField (.obj fs) ("content".data) with
              | none => jsToString (.obj fs)
              | some .null => jsToString (.obj fs)
              | some v => jsToString v))] := rfl
    rw [e0, h]
    rfl
  case p7 =>
    intro u c mv hu hc _
    cases u with
    | nil => exact absurd rfl hu
    | cons a t =>
      cases c with
      | nil => exact absurd rfl hc
      | cons b t2 => rfl

/-- C9 witness: a string `messages` payload normalizes to the empty list and a
    null payload still lets the request reach streaming with status 200. -/
theorem c9_message_normalization_total_witness :
    normalizeIncoming (some (.str ("x".data))) = [] ∧
    (handleChatRequest (some (.obj [(("userId".data), .str ("u".data)),
        (("chatId".data), .str ("c".data)), (("messages".data), JsonValue.null)]))
      (.ok none) []).status = 200 :=
  ⟨c9_message_normalization_total.1 _ (fun ms => by simp),
   c9_message_normalization_total.2.2.2.2.2.2 _ _ _ (by decide) (by decide) (fun ms => by simp)⟩

theorem isEmpty_false_of_ne_nil (s : Str) (h : s ≠ []) : s.isEmpty = false := by
  cases s with
  | nil => exact absurd rfl h
  | cons a t => rfl

/-- C3 counterexample: a stored record that fails to parse makes
    `GET /api/history` answer 500, not the claimed 200 with empty history. -/
theorem c3_counterexample_parse_failure_500 :
    (getChatHistory (some ("u".data)) (some ("c".data)) (.ok (some ("notjson".data)))).status
      = 500 ∧
    ¬(getChatHistory (some ("u".data)) (some ("c".data)) (.ok (some ("notjson".data)))).status
      = 200 := by
  exact ⟨rfl, by decide⟩

/-- C3 amended: a missing record degrades to 200 with empty history and empty
    conversation list, and a chat turn on an unparseable record proceeds with
    empty history and status 200; but a record that fails to parse (or a
    throwing store read) makes `GET /api/history` and `GET /api/conversations`
    answer 500 rather than the claimed 200. -/
theorem c3_storage_degradation :
    (∀ u c : Str, u ≠ [] → c ≠ [] →
      getChatHistory (some u) (some c) (.ok none)
        = ⟨200, .obj [(("history".data), .arr [])]⟩) ∧
    (∀ u : Str, u ≠ [] →
      getConversations (some u) (.ok none) = ⟨200, .obj [(("chats".data), .arr [])]⟩) ∧
    (∀ u c s : Str, u ≠ [] → c ≠ [] → s ≠ [] → jsonParse s = none →
      (getChatHistory (some u) (some c) (.ok (some s))).status = 500 ∧
      (getConversations (some u) (.ok (some s))).status = 500) ∧
    (∀ (c s : Str), s ≠ [] → jsonParse s = none →
      loadUserChats c (.ok (some s)) = (.obj [], none)) ∧
    (∀ u c s : Str, u ≠ [] → c ≠ [] → s ≠ [] → jsonParse s = none → ∀ chunks,
      (handleChatRequest (some (.obj [(("userId".data), .str u), (("chatId".data), .str c)]))
        (.ok (some s)) chunks).status = 200) := by
  have hload : ∀ (c s : Str), s ≠ [] → jsonParse s = none →
      loadUserChats c (.ok (some s)) = (.obj [], none) := by
    intro c s hs hp
    cases s with
    | nil => exact absurd rfl hs
    | cons e t3 => simp [loadUserChats, hp]
  refine ⟨?p1, ?p2, ?p3, hload, ?p5⟩
  case p1 =>
    intro u c hu hc
    cases u with
    | nil => exact absurd rfl hu
    | cons a t =>
      cases c with
      | nil => exact absurd rfl hc
      | cons b t2 => rfl
  case p2 =>
    intro u hu
    cases u with
    | nil => exact absurd rfl hu
    | cons a t => rfl
  case p3 =>
    intro u c s hu hc hs hp
    cases u with
    | nil => exact absurd rfl hu
    | cons a t =>
      cases c with
      | nil => exact absurd rfl hc
      | cons b t2 =>
        cases s with
        | nil => exact absurd rfl hs
        | cons e t3 =>
          constructor
          · simp [getChatHistory, paramOk, hp]
          · simp [getConversations, paramOk, hp]
  case p5 =>
    intro u c s hu hc hs hp chunks
    cases u with
    | nil => exact absurd rfl hu
    | cons a t =>
      cases c with
      | nil => exact absurd rfl hc
      | cons b t2 =>
        have hl := hload (b :: t2) s hs hp
        have e0 : (!(jsTruthy (JsonValue.obj [(("userId".data), JsonValue.str (a :: t)),
            (("chatId".data), JsonValue.str (b :: t2))]) &&
            jsIsObjectType (JsonValue.obj [(("userId".data), JsonValue.str (a :: t)),
            (("chatId".data), JsonValue.str (b :: t2))]))) = false := rfl
        have e1 : validStringField (jsGetField (JsonValue.obj
            [(("userId".data), JsonValue.str (a :: t)),
             (("chatId".data), JsonValue.str (b :: t2))]) ("userId".data))
            = some (a :: t) := rfl
        have e2 : validStringField (jsGetField (JsonValue.obj
            [(("userId".data), JsonValue.str (a :: t)),
             (("chatId".data), JsonValue.str (b :: t2))]) ("chatId".data))
            = some (b :: t2) := rfl
        have e5 : ∀ X : List JsonValue, spreadHistory none X = some X := fun X => rfl
        rw [handleChatRequest]
        simp [e0, e1, e2, hl, e5]

/-- C3 witness: missing record gives 200 and empty history, an unparseable
    record gives 500 on the conversations listing, and the chat turn still
    streams with status 200. -/
theorem c3_storage_degradation_witness :
    getChatHistory (some ("u".data)) (some ("c".data)) (.ok none)
      = ⟨200, .obj [(("history".data), .arr [])]⟩ ∧
    (getConversations (some ("u".data)) (.ok (some ("nope".data)))).status = 500 ∧
    (handleChatRequest (some (.obj [(("userId".data), .str ("u".data)),
        (("chatId".data), .str ("c".data))])) (.ok (some ("nope".data))) []).status = 200 :=
  ⟨c3_storage_degradation.1 ("u".data) ("c".data) (by decide) (by decide),
   (c3_storage_degradation.2.2.1 ("u".data) ("c".data) ("nope".data)
      (by decide) (by decide) (by decide) rfl).2,
   c3_storage_degradation.2.2.2.2 ("u".data) ("c".data) ("nope".data)
      (by decide) (by decide) (by decide) rfl []⟩

theorem noNum_chatMessageToJson (m : ChatMessage) : noNum (chatMessageToJson m) = true := rfl

theorem noNumItems_map_messages : ∀ ms : List ChatMessage,
    noNumItems (ms.map chatMessageToJson) = true := by
  intro ms
  induction ms with
  | nil => rfl
  | cons m t ih =>
    have e : noNumItems (chatMessageToJson m :: t.map chatMessageToJson)
        = (noNum (chatMessageToJson m) && noNumItems (t.map chatMessageToJson)) := rfl
    rw [List.map_cons, e, noNum_chatMessageToJson, ih]
    rfl

theorem noNum_chatToJson (c : Chat) : noNum (chatToJson c) = true := by
  have e : noNum (chatToJson c)
      = (true && (noNumItems (c.messages.map chatMessageToJson) && true)) := rfl
  rw [e, noNumItems_map_messages]
  rfl

theorem noNum_userChatsToJson : ∀ m : UserChats, noNum (userChatsToJson m) = true := by
  intro m
  induction m with
  | nil => rfl
  | cons p t ih =>
    obtain ⟨k, ch⟩ := p
    have e : noNum (userChatsToJson ((k, ch) :: t))
        = (noNum (chatToJson ch) && noNum (userChatsToJson t)) := rfl
    rw [e, noNum_chatToJson, ih]
    rfl

theorem jsGetField_userChats_none (m : UserChats) (c : Str) (habs : c ∉ m.map Prod.fst) :
    jsGetField (userChatsToJson m) c = none := by
  have hf : ((m.map (fun p => (p.1, chatToJson p.2))).reverse).find? (fun p => p.1 == c)
      = none := by
    rw [List.find?_eq_none]
    intro x hx
    rw [List.mem_reverse, List.mem_map] at hx
    obtain ⟨q, hq, rfl⟩ := hx
    simp only [beq_iff_eq]
    intro hkc
    exact habs (List.mem_map.mpr ⟨q, hq, hkc⟩)
  simp [userChatsToJson, jsGetField, hf]

/-- C2 counterexample: with existing names `Chat 1` and `Chat 3`, the
    orchestrator names the new conversation `Chat 3` (count plus one) while
    the claim requires the first-gap name `Chat 2`. -/
theorem c2_counterexample_name_not_first_gap :
    (∃ created, jsGetField (loadUserChats ("x".data)
        (.ok (some (stringify (userChatsToJson twoChatsExample))))).1 ("x".data)
        = some created ∧
      jsGetField created ("name".data) = some (.str ("Chat 3".data))) ∧
    specSmallestUnusedChatName [("Chat 1".data), ("Chat 3".data)] = ("Chat 2".data) ∧
    ¬(("Chat 3".data) : Str) = ("Chat 2".data) := by
  refine ⟨⟨_, rfl, rfl⟩, rfl, by decide⟩

/-- C2 amended: when a chat request arrives with a chatId not present in the
    stored conversation set, the orchestrator creates it with display name
    `Chat N` where N is the number of existing conversations plus one (the
    smallest-unused-number rule of the claim is only implemented by the
    frontend `createNewChat`). -/
theorem c2_new_chat_named_count_plus_one (m : UserChats) (c : Str)
    (hnd : (m.map Prod.fst).Nodup) (habs : c ∉ m.map Prod.fst) :
    loadUserChats c (.ok (some (stringify (userChatsToJson m))))
      = (jsSetField (userChatsToJson m) c (newChatValue (userChatsToJson m)), none) ∧
    jsGetField (newChatValue (userChatsToJson m)) ("name".data)
      = some (.str (("Chat ".data) ++ (Nat.repr (m.length + 1)).data)) := by
  have hnn := noNum_userChatsToJson m
  have hrt := jsonParse_stringify _ hnn
  have hget := jsGetField_userChats_none m c habs
  obtain ⟨c0, t0, he0, -, -, -⟩ := stringify_head_cases _ hnn
  have hne : (stringify (userChatsToJson m)).isEmpty = false := by rw [he0]; rfl
  constructor
  · simp [loadUserChats, hne, hrt, hget]
  · have e : jsGetField (newChatValue (userChatsToJson m)) ("name".data)
        = some (.str (("Chat ".data)
            ++ (Nat.repr (objKeysLength (userChatsToJson m) + 1)).data)) := rfl
    rw [e]
    have e2 : objKeysLength (userChatsToJson m) = m.length := by
      simp [userChatsToJson, objKeysLength]
    rw [e2]

/-- C2 amended witness at a one-conversation set. -/
theorem c2_new_chat_named_count_plus_one_witness :
    loadUserChats ("z".data) (.ok (some (stringify (userChatsToJson oneChatExample))))
      = (jsSetField (userChatsToJson oneChatExample) ("z".data)
          (newChatValue (userChatsToJson oneChatExample)), none) ∧
    jsGetField (newChatValue (userChatsToJson oneChatExample)) ("name".data)
      = some (.str (("Chat ".data) ++ (Nat.repr (oneChatExample.length + 1)).data)) :=
  c2_new_chat_named_count_plus_one oneChatExample ("z".data) (by decide) (by decide)

theorem filter_map_userchats (m : UserChats) (c : Str) :
    (m.map (fun p => (p.1, chatToJson p.2))).filter (fun p => !(p.1 == c))
      = (m.filter (fun p => !(p.1 == c))).map (fun p => (p.1, chatToJson p.2)) := by
  induction m with
  | nil => rfl
  | cons p t ih =>
    simp only [List.map_cons, List.filter_cons]
    cases hk : (p.1 == c) with
    | true => simp [hk, ih]
    | false => simp [hk, ih]

theorem jsDeleteField_userChats (m : UserChats) (c : Str) :
    jsDeleteField (userChatsToJson m) c
      = userChatsToJson (m.filter (fun p => !(p.1 == c))) := by
  have e : jsDeleteField (userChatsToJson m) c
      = .obj ((m.map (fun p => (p.1, chatToJson p.2))).filter (fun p => !(p.1 == c))) := rfl
  rw [e, filter_map_userchats]
  rfl

theorem not_mem_keys_filter (m : UserChats) (c : Str) :
    c ∉ (m.filter (fun p => !(p.1 == c))).map Prod.fst := by
  intro hmem
  rw [List.mem_map] at hmem
  obtain ⟨q, hq, hfst⟩ := hmem
  rw [List.mem_filter] at hq
  have h2 : (q.1 == c) = false := by simpa using hq.2
  rw [hfst] at h2
  simp at h2

theorem jsGetField_userChats_cases (m : UserChats) (c : Str) :
    jsGetField (userChatsToJson m) c = none ∨
    ∃ ch : Chat, jsGetField (userChatsToJson m) c = some (chatToJson ch) := by
  cases hf : ((m.map (fun p => (p.1, chatToJson p.2))).reverse).find? (fun p => p.1 == c) with
  | none =>
    left
    simp [userChatsToJson, jsGetField, hf]
  | some q =>
    right
    have hmem := List.mem_of_find?_eq_some hf
    rw [List.mem_reverse, List.mem_map] at hmem
    obtain ⟨r, -, rfl⟩ := hmem
    exact ⟨r.2, by simp [userChatsToJson, jsGetField, hf]⟩

theorem keys_filter_eq_of_get_none (m : UserChats) (c : Str)
    (h : jsGetField (userChatsToJson m) c = none) :
    m.filter (fun p => !(p.1 == c)) = m := by
  rw [List.filter_eq_self]
  intro p hp
  by_contra hbc
  have hbt : (p.1 == c) = true := by
    cases hq : (p.1 == c) with
    | true => rfl
    | false => rw [hq] at hbc; simp at hbc
  have h2 : (((m.map (fun p => (p.1, chatToJson p.2))).reverse).find?
      (fun p => p.1 == c)).map (fun p => p.2) = none := h
  have hfind := Option.map_eq_none'.mp h2
  have hmem2 : ((p.1, chatToJson p.2)) ∈ (m.map (fun p => (p.1, chatToJson p.2))).reverse := by
    rw [List.mem_reverse, List.mem_map]
    exact ⟨p, hp, rfl⟩
  have := List.find?_eq_none.mp hfind _ hmem2
  simp [hbt] at this

/-- C6: deleting a conversation removes exactly that entry and rewrites the
    whole record with a 7-day TTL; deleting it again from the resulting
    record (or deleting an absent id) reports the same
    `\x7bmessage: "Chat deleted"\x7d` success and writes the identical
    record, so the operation is idempotent. -/
theorem c6_delete_idempotent_and_absent_ok (m : UserChats) (userId c : Str)
    (hu : userId ≠ []) (hc : c ≠ []) :
    deleteChatHistory (some userId) (some c) (.ok (some (stringify (userChatsToJson m))))
      = ⟨200, .obj [(("message".data), .str ("Chat deleted".data))],
          some (.kvPut (historyKey userId)
            (stringify (userChatsToJson (m.filter (fun p => !(p.1 == c)))))
            (60 * 60 * 24 * 7))⟩ ∧
    deleteChatHistory (some userId) (some c)
        (.ok (some (stringify (userChatsToJson (m.filter (fun p => !(p.1 == c)))))))
      = ⟨200, .obj [(("message".data), .str ("Chat deleted".data))],
          some (.kvPut (historyKey userId)
            (stringify (userChatsToJson (m.filter (fun p => !(p.1 == c)))))
            (60 * 60 * 24 * 7))⟩ := by
  obtain ⟨a, t, rfl⟩ : ∃ a t, userId = a :: t := by
    cases userId with
    | nil => exact absurd rfl hu
    | cons a t => exact ⟨a, t, rfl⟩
  obtain ⟨b, t2, rfl⟩ : ∃ b t2, c = b :: t2 := by
    cases c with
    | nil => exact absurd rfl hc
    | cons b t2 => exact ⟨b, t2, rfl⟩
  have hnn := noNum_userChatsToJson m
  have hrt := jsonParse_stringify (userChatsToJson m) hnn
  obtain ⟨c0, t0, he0, -, -, -⟩ := stringify_head_cases _ hnn
  have hne1 : (stringify (userChatsToJson m)).isEmpty = false := by rw [he0]; rfl
  have hnn2 := noNum_userChatsToJson (m.filter (fun p => !(p.1 == (b :: t2))))
  have hrt2 := jsonParse_stringify _ hnn2
  obtain ⟨c1, t1, he1, -, -, -⟩ := stringify_head_cases _ hnn2
  have hne2 : (stringify (userChatsToJson
      (m.filter (fun p => !(p.1 == (b :: t2)))))).isEmpty = false := by
    rw [he1]; rfl
  have hget2 := jsGetField_userChats_none (m.filter (fun p => !(p.1 == (b :: t2)))) (b :: t2)
    (not_mem_keys_filter m (b :: t2))
  constructor
  · rcases jsGetField_userChats_cases m (b :: t2) with hnone | ⟨ch, hsome⟩
    · have hfe := keys_filter_eq_of_get_none m (b :: t2) hnone
      rw [hfe]
      simp [deleteChatHistory, paramOk, hne1, hrt, hnone]
    · have htr : jsTruthy (chatToJson ch) = true := rfl
      simp [deleteChatHistory, paramOk, hne1, hrt, hsome, htr, jsDeleteField_userChats]
  · simp [deleteChatHistory, paramOk, hne2, hrt2, hget2]

/-- C6 witness at a concrete record holding one conversation. -/
theorem c6_delete_idempotent_and_absent_ok_witness :
    deleteChatHistory (some ("u".data)) (some ("a".data))
        (.ok (some (stringify (userChatsToJson oneChatExample))))
      = ⟨200, .obj [(("message".data), .str ("Chat deleted".data))],
          some (.kvPut (historyKey ("u".data))
            (stringify (userChatsToJson
              (oneChatExample.filter (fun p => !(p.1 == ("a".data))))))
            (60 * 60 * 24 * 7))⟩ ∧
    deleteChatHistory (some ("u".data)) (some ("a".data))
        (.ok (some (stringify (userChatsToJson
          (oneChatExample.filter (fun p => !(p.1 == ("a".data))))))))
      = ⟨200, .obj [(("message".data), .str ("Chat deleted".data))],
          some (.kvPut (historyKey ("u".data))
            (stringify (userChatsToJson
              (oneChatExample.filter (fun p => !(p.1 == ("a".data))))))
            (60 * 60 * 24 * 7))⟩ :=
  c6_delete_idempotent_and_absent_ok oneChatExample ("u".data) ("a".data)
    (by decide) (by decide)
